import Mathlib

/-!
Verification of the loose-object store in `src/catfile.rs` (and its duplicate in
`src/main.rs`) of the codecrafters-git repository.

Modelling conventions:
* A Rust `String`/`&str` is a `List Char`; a raw byte stream is a `List Nat`
  whose elements are below 256.
* Rust file I/O is made explicit: `cat_file` takes the filesystem as a function
  from a path to the `Except`-result of opening-and-zlib-decoding the file at
  that path (the `ZlibDecoder` is the identity of the model: the function
  directly yields the decompressed byte stream); `hash_object` threads an
  explicit `FsState`.
* A Rust panic (`unwrap` on `Err`, `split_at` off a char boundary) is the
  explicit result `RRes.panicked`.
-/

/-- Model of Rust `char::is_whitespace`, i.e. the Unicode `White_Space`
property.  The full list of `White_Space` code points is transcribed. -/
def rustIsWhitespace (c : Char) : Bool :=
  let n := c.toNat
  (decide (9 ≤ n) && decide (n ≤ 13)) || n == 32 || n == 0x85 || n == 0xA0 ||
  n == 0x1680 || (decide (0x2000 ≤ n) && decide (n ≤ 0x200A)) || n == 0x2028 ||
  n == 0x2029 || n == 0x202F || n == 0x205F || n == 0x3000

/-- Model of Rust `char::is_alphanumeric` (Unicode `Alphabetic` or `Number`).
The full Unicode tables are out of reach of the model: it is exact on ASCII and
additionally covers the non-ASCII characters used as concrete inputs in this
development, U+00C0 and U+3042, both of which are Unicode `Alphabetic`. -/
def rustIsAlphanumeric (c : Char) : Bool :=
  c.isAlpha || c.isDigit || c == 'À' || c == 'あ'

/-- Number of bytes of the UTF-8 encoding of a character (same value as Rust's
`char::len_utf8` and Lean's `Char.utf8Size`, restated over `Nat`). -/
def charUtf8Size (c : Char) : Nat :=
  if c.toNat < 0x80 then 1
  else if c.toNat < 0x800 then 2
  else if c.toNat < 0x10000 then 3
  else 4

/-- UTF-8 encoding of one character as bytes. -/
def utf8EncodeChar (c : Char) : List Nat :=
  let n := c.toNat
  if n < 0x80 then [n]
  else if n < 0x800 then [0xC0 + n / 0x40, 0x80 + n % 0x40]
  else if n < 0x10000 then
    [0xE0 + n / 0x1000, 0x80 + (n / 0x40) % 0x40, 0x80 + n % 0x40]
  else
    [0xF0 + n / 0x40000, 0x80 + (n / 0x1000) % 0x40, 0x80 + (n / 0x40) % 0x40,
     0x80 + n % 0x40]

/-- UTF-8 encoding of a string (list of characters) as bytes. -/
def utf8Encode (s : List Char) : List Nat :=
  s.flatMap utf8EncodeChar

/-- A UTF-8 continuation byte: `10xxxxxx`. -/
def contByte (b : Nat) : Bool :=
  decide (0x80 ≤ b) && decide (b < 0xC0)

/-- Continuation of a 2-byte UTF-8 sequence headed by `b0`. -/
def utf8Cont1 (b0 : Nat) : List Nat → Option (Char × List Nat)
  | b1 :: t1 =>
    if contByte b1 then
      some (Char.ofNat ((b0 - 0xC0) * 0x40 + (b1 - 0x80)), t1)
    else none
  | [] => none

/-- Continuation of a 3-byte UTF-8 sequence headed by `b0`; the first
continuation byte's range depends on `b0` (overlong and surrogate
exclusion). -/
def utf8Cont2 (b0 : Nat) : List Nat → Option (Char × List Nat)
  | b1 :: b2 :: t2 =>
    if (if b0 = 0xE0 then decide (0xA0 ≤ b1) && decide (b1 < 0xC0)
        else if b0 = 0xED then decide (0x80 ≤ b1) && decide (b1 < 0xA0)
        else contByte b1) && contByte b2 then
      some (Char.ofNat ((b0 - 0xE0) * 0x1000 + (b1 - 0x80) * 0x40 + (b2 - 0x80)), t2)
    else none
  | _ => none

/-- Continuation of a 4-byte UTF-8 sequence headed by `b0`; the first
continuation byte's range depends on `b0` (overlong and beyond-U+10FFFF
exclusion). -/
def utf8Cont3 (b0 : Nat) : List Nat → Option (Char × List Nat)
  | b1 :: b2 :: b3 :: t3 =>
    if (if b0 = 0xF0 then decide (0x90 ≤ b1) && decide (b1 < 0xC0)
        else if b0 = 0xF4 then decide (0x80 ≤ b1) && decide (b1 < 0x90)
        else contByte b1) && contByte b2 && contByte b3 then
      some (Char.ofNat ((b0 - 0xF0) * 0x40000 + (b1 - 0x80) * 0x1000 +
        (b2 - 0x80) * 0x40 + (b3 - 0x80)), t3)
    else none
  | _ => none

/-- Decode one UTF-8 character from the head of a byte stream (strict:
rejects overlong encodings, surrogates, code points above U+10FFFF). -/
def utf8DecodeHead : List Nat → Option (Char × List Nat)
  | [] => none
  | b0 :: t =>
    if b0 < 0x80 then some (Char.ofNat b0, t)
    else if b0 < 0xC2 then none
    else if b0 < 0xE0 then utf8Cont1 b0 t
    else if b0 < 0xF0 then utf8Cont2 b0 t
    else if b0 < 0xF5 then utf8Cont3 b0 t
    else none

/-- Decoding loop; the fuel is the length of the stream, which suffices since
every decoded character consumes at least one byte. -/
def utf8DecodeLoop : Nat → List Nat → Option (List Char)
  | _, [] => some []
  | 0, _ :: _ => none
  | fuel + 1, l =>
    match utf8DecodeHead l with
    | none => none
    | some (c, rest) => (utf8DecodeLoop fuel rest).map (fun cs => c :: cs)

/-- Strict UTF-8 decoding of a byte stream, as performed by Rust's
`String::from_utf8` / `Read::read_to_string`. -/
def utf8Decode (l : List Nat) : Option (List Char) :=
  utf8DecodeLoop l.length l

/-- Model of Rust `str::split_at (mid)`: splits a string at byte index `mid`.
Returns `none` exactly when Rust panics, i.e. when `mid` does not land on a
character boundary (including `mid` beyond the end of the string). -/
def splitAtByte : List Char → Nat → Option (List Char × List Char)
  | s, 0 => some ([], s)
  | [], _ + 1 => none
  | c :: rest, n + 1 =>
    if charUtf8Size c ≤ n + 1 then
      (splitAtByte rest (n + 1 - charUtf8Size c)).map (fun p => (c :: p.1, p.2))
    else none

/-- Model of Rust `str::split_once ( '\0' )`: splits at the first NUL
character, `none` when there is no NUL. -/
def splitOnceNull : List Char → Option (List Char × List Char)
  | [] => none
  | c :: rest =>
    if c = '\x00' then some ([], rest)
    else (splitOnceNull rest).map (fun p => (c :: p.1, p.2))

/-- Model of Rust `str::parse::<u8>()`: an optional leading `+` followed by one
or more ASCII digits, value at most 255; `none` on any other input. -/
def parseU8 (s : List Char) : Option Nat :=
  let digits := match s with
    | '+' :: rest => rest
    | _ => s
  if digits.isEmpty then none
  else if digits.all Char.isDigit then
    let v := digits.foldl (fun a c => a * 10 + (c.toNat - 48)) 0
    if v ≤ 255 then some v else none
  else none

/-- The error enum of `src/catfile.rs` (`Error`). -/
inductive GitError where
  | MalformedObject
  | ObjectNotFound
  | InvalidObjectHash (hash : List Char)
  deriving DecidableEq, Repr

/-- The kinds of backend I/O failure the model distinguishes
(`std::io::ErrorKind`). -/
inductive FsErrorKind where
  | NotFound
  | PermissionDenied
  | AlreadyExists
  | Other
  deriving DecidableEq, Repr

/-- An error escaping one of the repository's functions: either a domain error
(the `Error` enum) or a propagated backend I/O error. -/
inductive AnyError where
  | domain (e : GitError)
  | io (e : FsErrorKind)
  deriving DecidableEq, Repr

/-- Result of running a piece of the Rust code: a value, an error, or a panic. -/
inductive RRes (α : Type) where
  | ok (a : α)
  | err (e : AnyError)
  | panicked
  deriving DecidableEq, Repr

/-- The 4-character tag every object frame must start with. -/
def blobTag : List Char := ['b', 'l', 'o', 'b']

/-- Translation of `parse_blob` (src/catfile.rs lines 16-32).  The argument is
the `Option`-wrapped decompressed byte stream (`None` models the `.ok()`-erased
failed open in `cat_file`).  Steps, in source order:
`ok_or(ObjectNotFound)`; `read_exact` of a 4-byte header (short read ⇒
`MalformedObject`); `String::from_utf8(..).unwrap()` (invalid UTF-8 ⇒ panic);
compare with "blob"; `read_to_string` of the rest (invalid UTF-8 ⇒
`MalformedObject`); `trim_start`; `split_once ( '\0' )`; `parse::<u8>` of the
size field; return the tail. -/
def parse_blob (blob : Option (List Nat)) : RRes (List Char) :=
  match blob with
  | none => .err (.domain .ObjectNotFound)
  | some bytes =>
    if bytes.length < 4 then .err (.domain .MalformedObject)
    else
      match utf8Decode (bytes.take 4) with
      | none => .panicked
      | some header =>
        if header ≠ blobTag then .err (.domain .MalformedObject)
        else
          match utf8Decode (bytes.drop 4) with
          | none => .err (.domain .MalformedObject)
          | some content =>
            match splitOnceNull (content.dropWhile rustIsWhitespace) with
            | none => .err (.domain .MalformedObject)
            | some (size, rest) =>
              if (parseU8 size).isNone then .err (.domain .MalformedObject)
              else .ok rest

/-- The constant leading part of every object path: `./.git/objects/`. -/
def objectsRoot : List Char := ("./.git/objects/").data

/-- Translation of `parse_object_path_from_hash` (src/catfile.rs lines 34-40):
validate that the hash has exactly 40 characters, all alphanumeric, then
`split_at (2)` (a byte split, which panics off a char boundary) and format
`./.git/objects/{dir}/{filename}`. -/
def parse_object_path_from_hash (hash : List Char) : RRes (List Char) :=
  if hash.length == 40 && hash.all rustIsAlphanumeric then
    match splitAtByte hash 2 with
    | some (dir, filename) => .ok (objectsRoot ++ dir ++ '/' :: filename)
    | none => .panicked
  else .err (.domain (.InvalidObjectHash hash))

/-- Translation of `cat_file` (src/catfile.rs lines 42-48).  `fs` is the
filesystem: it maps a path to the result of `fs::File::open` composed with
zlib decompression, yielding the decompressed byte stream of the file at that
path or the open error.  The source applies `.ok()` to the open result,
collapsing every open error into `None`, and hands that to `parse_blob`.  The
returned value is the content the source would print. -/
def cat_file (fs : List Char → Except FsErrorKind (List Nat))
    (hash : List Char) : RRes (List Char) :=
  match parse_object_path_from_hash hash with
  | .err e => .err e
  | .panicked => .panicked
  | .ok path => parse_blob (fs path).toOption

/-- The directory part of a path: everything before the last `/`.  Used to
model the filesystem's requirement that a file's parent directory exist. -/
def parentDir (p : List Char) : List Char :=
  ((p.reverse.dropWhile (fun c => c ≠ '/')).drop 1).reverse

/-- The filesystem state threaded through `hash_object`: the set of existing
directories and the raw byte content of each existing file. -/
structure FsState where
  dirs : List (List Char)
  files : List Char → Option (List Nat)

/-- Pointwise file update used by `fs_write`. -/
def writeAt (f : List Char → Option (List Nat)) (p : List Char)
    (v : List Nat) : List Char → Option (List Nat) :=
  fun q => if q = p then some v else f q

/-- Model of `fs::write`: succeeds iff the parent directory of the path
exists, and replaces the file's content; fails with `NotFound` otherwise. -/
def fs_write (st : FsState) (path : List Char) (content : List Nat) :
    Except FsErrorKind FsState :=
  if st.dirs.contains (parentDir path) then
    .ok { st with files := writeAt st.files path content }
  else .error .NotFound

/-- Model of `fs::create_dir`: fails with `AlreadyExists` on an existing
directory and with `NotFound` when the parent directory is missing. -/
def fs_create_dir (st : FsState) (d : List Char) : Except FsErrorKind FsState :=
  if st.dirs.contains d then .error .AlreadyExists
  else if st.dirs.contains (parentDir d) then .ok { st with dirs := d :: st.dirs }
  else .error .NotFound

/-- The constant hash literal hard-coded in `hash_object`. -/
def stubHash : List Char := ("ac136066947976e9f5ae7cc6bdccac22d0fc0f6f").data

/-- Translation of `hash_object` (src/catfile.rs lines 50-62).  The `_path`
argument is ignored by the source; the hash is the hard-coded literal.  The
source writes the empty string to the object path; on a `NotFound` write error
it creates the shard directory (`object_path.split_at (17)`, a byte split) and
retries the write, propagating any error of those two calls; a write error of
any other kind is silently dropped (the `if let` has no `else`).  The returned
pair is the resulting filesystem state and the hash the source prints. -/
def hash_object (st : FsState) (_path : List Char) :
    RRes (FsState × List Char) :=
  match parse_object_path_from_hash stubHash with
  | .err e => .err e
  | .panicked => .panicked
  | .ok object_path =>
    match fs_write st object_path [] with
    | .ok st1 => .ok (st1, stubHash)
    | .error e =>
      if e = .NotFound then
        match splitAtByte object_path 17 with
        | none => .panicked
        | some (directory, _) =>
          match fs_create_dir st directory with
          | .error e2 => .err (.io e2)
          | .ok st1 =>
            match fs_write st1 object_path [] with
            | .error e3 => .err (.io e3)
            | .ok st2 => .ok (st2, stubHash)
      else .ok (st, stubHash)

/-- Modelled from the spec (§4.1 `encode`): the Object Frame
`"blob" ++ " " ++ decimal(len content) ++ NUL ++ content`.  The source under
`src/` contains no encoder — `hash_object` writes an empty file instead — so
this definition follows the spec's words and is only compared against what the
code stores. -/
def specFrame (content : List Char) : List Char :=
  blobTag ++ ' ' :: (Nat.toDigits 10 content.length) ++ '\x00' :: content

theorem utf8EncodeChar_ascii {c : Char} (h : c.toNat < 128) :
    utf8EncodeChar c = [c.toNat] := by
  simp [utf8EncodeChar, h]

theorem utf8Decode_cons_ascii {b : Nat} (hb : b < 128) (t : List Nat) :
    utf8Decode (b :: t) = (utf8Decode t).map (fun cs => Char.ofNat b :: cs) := by
  have hhead : utf8DecodeHead (b :: t) = some (Char.ofNat b, t) := by
    simp only [utf8DecodeHead]
    rw [if_pos (show b < 0x80 by omega)]
  show utf8DecodeLoop (b :: t).length (b :: t) = _
  simp only [List.length_cons, utf8DecodeLoop, hhead]
  rfl

theorem utf8Decode_encode_ascii (s : List Char) (h : ∀ c ∈ s, c.toNat < 128) :
    utf8Decode (utf8Encode s) = some s := by
  induction s with
  | nil => rfl
  | cons c rest ih =>
    have hc : c.toNat < 128 := h c (by simp)
    have hrest : ∀ x ∈ rest, x.toNat < 128 := fun x hx => h x (by simp [hx])
    have henc : utf8Encode (c :: rest) = c.toNat :: utf8Encode rest := by
      simp [utf8Encode, utf8EncodeChar_ascii hc]
    rw [henc, utf8Decode_cons_ascii hc, ih hrest]
    simp

theorem parse_blob_header (bs : List Nat) :
    parse_blob (some (98 :: 108 :: 111 :: 98 :: bs)) =
      (match utf8Decode bs with
       | none => .err (.domain .MalformedObject)
       | some content =>
         match splitOnceNull (content.dropWhile rustIsWhitespace) with
         | none => .err (.domain .MalformedObject)
         | some (size, rest) =>
           if (parseU8 size).isNone then .err (.domain .MalformedObject)
           else .ok rest) := by
  have htake : ((98 : Nat) :: 108 :: 111 :: 98 :: bs).take 4 = [98, 108, 111, 98] := rfl
  have hdrop : ((98 : Nat) :: 108 :: 111 :: 98 :: bs).drop 4 = bs := rfl
  have hdec4 : utf8Decode [98, 108, 111, 98] = some blobTag := by decide
  have hlen : ¬((98 : Nat) :: 108 :: 111 :: 98 :: bs).length < 4 := by
    simp [List.length_cons]
  have hne : ¬(blobTag ≠ blobTag) := fun h => h rfl
  simp only [parse_blob, htake, hdrop, hdec4, if_neg hlen, if_neg hne]

theorem parse_blob_ascii (rest : List Char) (hrest : ∀ c ∈ rest, c.toNat < 128) :
    parse_blob (some (utf8Encode (blobTag ++ rest))) =
      (match splitOnceNull (rest.dropWhile rustIsWhitespace) with
       | none => .err (.domain .MalformedObject)
       | some (size, tail) =>
         if (parseU8 size).isNone then .err (.domain .MalformedObject)
         else .ok tail) := by
  have henc : utf8Encode (blobTag ++ rest) =
      98 :: 108 :: 111 :: 98 :: utf8Encode rest := by
    simp only [utf8Encode, blobTag, List.flatMap_cons, List.nil_append,
      List.cons_append, List.append_assoc]
    rfl
  rw [henc, parse_blob_header, utf8Decode_encode_ascii rest hrest]

theorem dropWhile_append_all {p : Char → Bool} {ws l : List Char}
    (h : ∀ c ∈ ws, p c = true) :
    (ws ++ l).dropWhile p = l.dropWhile p := by
  induction ws with
  | nil => rfl
  | cons c cs ih =>
    have hc : p c = true := h c (by simp)
    simp only [List.cons_append, List.dropWhile_cons, hc, if_true]
    exact ih (fun x hx => h x (by simp [hx]))

theorem splitAtByte_append {s : List Char} {n : Nat} {a b : List Char}
    (h : splitAtByte s n = some (a, b)) : s = a ++ b := by
  induction s generalizing n a b with
  | nil =>
    cases n with
    | zero =>
      simp only [splitAtByte, Option.some.injEq, Prod.mk.injEq] at h
      obtain ⟨ha, hb⟩ := h
      subst ha; subst hb; rfl
    | succ m => simp [splitAtByte] at h
  | cons c rest ih =>
    cases n with
    | zero =>
      simp only [splitAtByte, Option.some.injEq, Prod.mk.injEq] at h
      obtain ⟨ha, hb⟩ := h
      subst ha; subst hb; rfl
    | succ m =>
      rw [splitAtByte] at h
      by_cases hle : charUtf8Size c ≤ m + 1
      · rw [if_pos hle, Option.map_eq_some'] at h
        obtain ⟨pr, hpr, heq⟩ := h
        obtain ⟨a1, b1⟩ := pr
        cases heq
        simpa using ih hpr
      · rw [if_neg hle] at h
        cases h

theorem splitAtByte_two_ascii {c1 c2 : Char} (h1 : c1.toNat < 128)
    (h2 : c2.toNat < 128) (rest : List Char) :
    splitAtByte (c1 :: c2 :: rest) 2 = some ([c1, c2], rest) := by
  have s1 : charUtf8Size c1 = 1 := by simp [charUtf8Size, h1]
  have s2 : charUtf8Size c2 = 1 := by simp [charUtf8Size, h2]
  rw [show (2 : Nat) = 1 + 1 from rfl, splitAtByte, s1]
  simp only [if_pos (by omega : 1 ≤ 1 + 1)]
  rw [show (1 + 1 - 1 : Nat) = 0 + 1 from rfl, splitAtByte, s2]
  simp [splitAtByte]

theorem append_sep_inj {sep : Char} {d1 d2 f1 f2 : List Char}
    (h1 : ∀ c ∈ d1, c ≠ sep) (h2 : ∀ c ∈ d2, c ≠ sep)
    (heq : d1 ++ sep :: f1 = d2 ++ sep :: f2) : d1 = d2 ∧ f1 = f2 := by
  induction d1 generalizing d2 with
  | nil =>
    cases d2 with
    | nil => simpa using heq
    | cons y ys =>
      simp only [List.nil_append, List.cons_append, List.cons.injEq] at heq
      exact absurd heq.1.symm (h2 y (by simp))
  | cons x xs ih =>
    cases d2 with
    | nil =>
      simp only [List.nil_append, List.cons_append, List.cons.injEq] at heq
      exact absurd heq.1 (h1 x (by simp))
    | cons y ys =>
      simp only [List.cons_append, List.cons.injEq] at heq
      obtain ⟨hxy, htail⟩ := heq
      subst hxy
      have := ih (fun c hc => h1 c (by simp [hc])) (fun c hc => h2 c (by simp [hc])) htail
      exact ⟨by rw [this.1], this.2⟩

theorem parse_object_path_ok {h p : List Char}
    (hp : parse_object_path_from_hash h = .ok p) :
    (∀ c ∈ h, rustIsAlphanumeric c = true) ∧
    ∃ d f, splitAtByte h 2 = some (d, f) ∧ p = objectsRoot ++ d ++ '/' :: f := by
  unfold parse_object_path_from_hash at hp
  by_cases hv : (h.length == 40 && h.all rustIsAlphanumeric) = true
  · rw [if_pos hv] at hp
    have hall : ∀ c ∈ h, rustIsAlphanumeric c = true := by
      have := (Bool.and_eq_true _ _).mp hv
      exact fun c hc => List.all_eq_true.mp this.2 c hc
    cases hs : splitAtByte h 2 with
    | none => rw [hs] at hp; cases hp
    | some pr =>
      obtain ⟨d, f⟩ := pr
      rw [hs] at hp
      cases hp
      exact ⟨hall, d, f, rfl, rfl⟩
  · rw [if_neg hv] at hp
    cases hp

theorem parse_object_path_invalid {h : List Char}
    (hbad : h.length ≠ 40 ∨ ∃ c ∈ h, rustIsAlphanumeric c = false) :
    parse_object_path_from_hash h = .err (.domain (.InvalidObjectHash h)) := by
  unfold parse_object_path_from_hash
  rw [if_neg]
  intro hv
  rw [Bool.and_eq_true] at hv
  obtain ⟨hlen, hall⟩ := hv
  cases hbad with
  | inl hl => exact hl (by simpa using hlen)
  | inr he =>
    obtain ⟨c, hc, hcf⟩ := he
    have := List.all_eq_true.mp hall c hc
    rw [hcf] at this
    cases this

theorem splitOnceNull_append {size tail : List Char} (h : ∀ c ∈ size, c ≠ '\x00') :
    splitOnceNull (size ++ '\x00' :: tail) = some (size, tail) := by
  induction size with
  | nil => simp [splitOnceNull]
  | cons c cs ih =>
    have hc : c ≠ '\x00' := h c (by simp)
    rw [List.cons_append, splitOnceNull, if_neg hc,
      ih (fun x hx => h x (by simp [hx]))]
    rfl

theorem dropWhile_cons_of_head {p : Char → Bool} {size tail : List Char}
    (hsz : ∀ c ∈ size, p c = false) (htl : p '\x00' = false) :
    (size ++ '\x00' :: tail).dropWhile p = size ++ '\x00' :: tail := by
  cases size with
  | nil =>
    simp only [List.nil_append]
    exact List.dropWhile_cons_of_neg (by simp [htl])
  | cons c cs =>
    simp only [List.cons_append]
    exact List.dropWhile_cons_of_neg (by simp [hsz c (by simp)])

/-- C7: decoding a frame missing the null separator (raw bytes `blob 5hello`),
a frame with a non-numeric size field (`blob X\0hello`), and a frame with a
wrong 4-byte tag (`tree` instead of `blob`) each make `parse_blob` fail with
`MalformedObject` and return no content. -/
theorem claim_c7_malformed_frames :
    parse_blob (some (utf8Encode (("blob 5hello").data))) =
      .err (.domain .MalformedObject) ∧
    parse_blob (some (utf8Encode (("blob X\x00hello").data))) =
      .err (.domain .MalformedObject) ∧
    parse_blob (some (utf8Encode (("tree 5\x00hello").data))) =
      .err (.domain .MalformedObject) := by
  decide

/-- C10: the decoder does not require the single-space separator between the
tag and the size field: the concrete frame `blob7\0hi` decodes to `hi`, and
more generally any amount of (ASCII) whitespace — including none — between
the 4-byte tag and the size field is accepted. -/
theorem claim_c10_whitespace_not_required :
    (∀ ws : List Char,
      (∀ c ∈ ws, rustIsWhitespace c = true ∧ c.toNat < 128) →
      parse_blob
          (some (utf8Encode (blobTag ++ ws ++ ('7' :: '\x00' :: 'h' :: 'i' :: [])))) =
        .ok ('h' :: 'i' :: [])) ∧
    parse_blob (some (utf8Encode (("blob7\x00hi").data))) = .ok (("hi").data) := by
  constructor
  · intro ws hws
    have hrest : ∀ c ∈ ws ++ ('7' :: '\x00' :: 'h' :: 'i' :: []), c.toNat < 128 := by
      intro c hc
      rcases List.mem_append.mp hc with h | h
      · exact (hws c h).2
      · simp only [List.mem_cons, List.not_mem_nil, or_false] at h
        rcases h with rfl | rfl | rfl | rfl <;> decide
    rw [List.append_assoc, parse_blob_ascii _ hrest,
      dropWhile_append_all (fun c hc => (hws c hc).1)]
    decide
  · decide

/-- C6: a hash whose length is not 40 or that contains a non-alphanumeric
character makes both `parse_object_path_from_hash` (the spec's
`resolve_location`) and `cat_file` (the spec's `get`) fail with
`InvalidObjectHash` carrying that hash; `cat_file`'s result does not depend on
the filesystem, i.e. no I/O is performed. -/
theorem claim_c6_invalid_hash_fast_failure (h : List Char)
    (hbad : h.length ≠ 40 ∨ ∃ c ∈ h, rustIsAlphanumeric c = false) :
    parse_object_path_from_hash h = .err (.domain (.InvalidObjectHash h)) ∧
    ∀ fs, cat_file fs h = .err (.domain (.InvalidObjectHash h)) := by
  have hp := parse_object_path_invalid hbad
  refine ⟨hp, fun fs => ?_⟩
  simp only [cat_file, hp]

theorem claim_c6_witness :
    parse_object_path_from_hash (("abc").data) =
      .err (.domain (.InvalidObjectHash (("abc").data))) ∧
    cat_file (fun _ => .error .NotFound) (("abc").data) =
      .err (.domain (.InvalidObjectHash (("abc").data))) :=
  ⟨(claim_c6_invalid_hash_fast_failure (("abc").data) (Or.inl (by decide))).1,
   (claim_c6_invalid_hash_fast_failure (("abc").data) (Or.inl (by decide))).2
     (fun _ => .error .NotFound)⟩

/-- C8: `parse_object_path_from_hash` is deterministic (it is a pure
function), injective on accepted hashes — two hashes mapped to the same path
are equal — and maps the hash `a1b2c3d4e5f6g7h8i9j0a1b2c3d4e5f6g7h8i9j0` to
the path with shard directory `a1` and file name
`b2c3d4e5f6g7h8i9j0a1b2c3d4e5f6g7h8i9j0`. -/
theorem claim_c8_location_injective :
    (∀ h1 h2 p, parse_object_path_from_hash h1 = .ok p →
      parse_object_path_from_hash h2 = .ok p → h1 = h2) ∧
    parse_object_path_from_hash (("a1b2c3d4e5f6g7h8i9j0a1b2c3d4e5f6g7h8i9j0").data) =
      .ok (("./.git/objects/a1/b2c3d4e5f6g7h8i9j0a1b2c3d4e5f6g7h8i9j0").data) := by
  constructor
  · intro h1 h2 p hp1 hp2
    obtain ⟨hall1, d1, f1, hs1, hpe1⟩ := parse_object_path_ok hp1
    obtain ⟨hall2, d2, f2, hs2, hpe2⟩ := parse_object_path_ok hp2
    have hh1 : h1 = d1 ++ f1 := splitAtByte_append hs1
    have hh2 : h2 = d2 ++ f2 := splitAtByte_append hs2
    have hslash1 : ∀ c ∈ d1, c ≠ '/' := by
      intro c hc heq
      have hm : rustIsAlphanumeric c = true :=
        hall1 c (by rw [hh1]; exact List.mem_append_left _ hc)
      rw [heq] at hm
      exact absurd hm (by decide)
    have hslash2 : ∀ c ∈ d2, c ≠ '/' := by
      intro c hc heq
      have hm : rustIsAlphanumeric c = true :=
        hall2 c (by rw [hh2]; exact List.mem_append_left _ hc)
      rw [heq] at hm
      exact absurd hm (by decide)
    have hpe : objectsRoot ++ (d1 ++ '/' :: f1) = objectsRoot ++ (d2 ++ '/' :: f2) := by
      rw [← List.append_assoc, ← List.append_assoc, ← hpe1, ← hpe2]
    obtain ⟨hd, hf⟩ := append_sep_inj hslash1 hslash2 (List.append_cancel_left hpe)
    rw [hh1, hh2, hd, hf]
  · decide

theorem claim_c8_witness :
    ("a1b2c3d4e5f6g7h8i9j0a1b2c3d4e5f6g7h8i9j0").data =
      ("a1b2c3d4e5f6g7h8i9j0a1b2c3d4e5f6g7h8i9j0").data :=
  claim_c8_location_injective.1
    (("a1b2c3d4e5f6g7h8i9j0a1b2c3d4e5f6g7h8i9j0").data)
    (("a1b2c3d4e5f6g7h8i9j0a1b2c3d4e5f6g7h8i9j0").data)
    (("./.git/objects/a1/b2c3d4e5f6g7h8i9j0a1b2c3d4e5f6g7h8i9j0").data)
    (by decide) (by decide)

/-- C3 counterexample: the claim says a size field that is the decimal
rendering of any non-negative integer — 256 in particular — passes the size
check, but the source parses the field with `parse::<u8>()`, so `blob
256\0hi` is rejected with `MalformedObject`. -/
theorem claim_c3_counterexample :
    parse_blob (some (utf8Encode (("blob 256\x00hi").data))) =
      .err (.domain .MalformedObject) := by
  decide

/-- C3 (amended): for a frame `blob <size>\0<tail>`, `parse_blob` fails with
`MalformedObject` exactly when the size field does not parse as a `u8`, i.e.
as a decimal integer between 0 and 255 (with an optional leading `+`); a field
that parses — 255 for instance — passes, while 256 does not. -/
theorem claim_c3_size_field (size tail : List Char)
    (hsize : ∀ c ∈ size, c.toNat < 128 ∧ rustIsWhitespace c = false ∧ c ≠ '\x00')
    (htail : ∀ c ∈ tail, c.toNat < 128) :
    parse_blob (some (utf8Encode (blobTag ++ ' ' :: size ++ '\x00' :: tail))) =
      if (parseU8 size).isNone then .err (.domain .MalformedObject)
      else .ok tail := by
  have hrest : ∀ c ∈ ' ' :: size ++ '\x00' :: tail, c.toNat < 128 := by
    intro c hc
    simp only [List.mem_cons, List.mem_append] at hc
    rcases hc with (rfl | h) | (rfl | h)
    · decide
    · exact (hsize c h).1
    · decide
    · exact htail c h
  have hshape : blobTag ++ ' ' :: size ++ '\x00' :: tail =
      blobTag ++ (' ' :: (size ++ '\x00' :: tail)) := by
    simp
  rw [hshape, parse_blob_ascii _ (by simpa using hrest)]
  rw [List.dropWhile_cons_of_pos (by decide : rustIsWhitespace ' ' = true)]
  rw [dropWhile_cons_of_head (fun c hc => (hsize c hc).2.1) (by decide)]
  rw [splitOnceNull_append (fun c hc => (hsize c hc).2.2)]

theorem claim_c3_witness :
    parse_blob (some (utf8Encode (blobTag ++ ' ' :: ('2' :: '5' :: '5' :: []) ++
        '\x00' :: ('h' :: 'i' :: [])))) =
      if (parseU8 ('2' :: '5' :: '5' :: [])).isNone
      then .err (.domain .MalformedObject) else .ok ('h' :: 'i' :: []) :=
  claim_c3_size_field ('2' :: '5' :: '5' :: []) ('h' :: 'i' :: [])
    (by decide) (by decide)

/-- C4: the claim says `parse_blob` never panics on a bad tag; the code does
return `MalformedObject` on a short header and on a wrong 4-byte tag, but it
panics (`String::from_utf8(..).unwrap()`) when the first 4 bytes are not valid
UTF-8, e.g. on the stream `FF FF FF FF`. -/
theorem claim_c4_header_panic :
    parse_blob (some (255 :: 255 :: 255 :: 255 :: [])) = .panicked ∧
    parse_blob (some (98 :: 108 :: [])) = .err (.domain .MalformedObject) ∧
    parse_blob (some (116 :: 114 :: 101 :: 101 :: [])) =
      .err (.domain .MalformedObject) := by
  decide

/-- C5 counterexample: the hash made of `あ` (U+3042, Unicode-alphanumeric,
3 bytes in UTF-8) followed by 39 `a`s passes the validation — 40 characters,
all alphanumeric — yet `parse_object_path_from_hash` panics, because
`split_at (2)` does not land on a character boundary. -/
theorem claim_c5_counterexample :
    (('あ' :: List.replicate 39 'a').length == 40 &&
      ('あ' :: List.replicate 39 'a').all rustIsAlphanumeric) = true ∧
    parse_object_path_from_hash ('あ' :: List.replicate 39 'a') = .panicked := by
  decide

/-- C5 (amended): for every accepted hash made of single-byte (ASCII)
characters, the shard split is defined — `parse_object_path_from_hash`
returns the path made of the first two characters as shard directory and the
remaining 38 as file name, without panicking; accepted hashes containing
multi-byte characters can panic instead. -/
theorem claim_c5_ascii_split (h : List Char) (hlen : h.length = 40)
    (hchars : ∀ c ∈ h, rustIsAlphanumeric c = true ∧ c.toNat < 128) :
    parse_object_path_from_hash h =
      .ok (objectsRoot ++ h.take 2 ++ '/' :: h.drop 2) := by
  cases h with
  | nil => simp at hlen
  | cons c1 t =>
    cases t with
    | nil => simp at hlen
    | cons c2 rest =>
      have hv : ((c1 :: c2 :: rest).length == 40 &&
          (c1 :: c2 :: rest).all rustIsAlphanumeric) = true := by
        rw [Bool.and_eq_true]
        constructor
        · simpa using hlen
        · exact List.all_eq_true.mpr (fun c hc => (hchars c hc).1)
      rw [parse_object_path_from_hash, if_pos hv,
        splitAtByte_two_ascii (hchars c1 (by simp)).2 (hchars c2 (by simp)).2 rest]
      rfl

theorem claim_c5_witness :
    parse_object_path_from_hash (List.replicate 40 'a') =
      .ok (objectsRoot ++ (List.replicate 40 'a').take 2 ++
        '/' :: (List.replicate 40 'a').drop 2) :=
  claim_c5_ascii_split (List.replicate 40 'a') (by decide) (by decide)

theorem claim_c10_witness :
    parse_blob (some (utf8Encode (blobTag ++ (' ' :: []) ++
        ('7' :: '\x00' :: 'h' :: 'i' :: [])))) = .ok ('h' :: 'i' :: []) :=
  claim_c10_whitespace_not_required.1 (' ' :: []) (by decide)

/-- C2 counterexample: a failed open with kind `PermissionDenied` is
indistinguishable from a missing file — both are collapsed by `.ok()` into
`None` and surface as `ObjectNotFound`, contrary to the claim that
non-not-found backend errors are surfaced distinguishably. -/
theorem claim_c2_counterexample :
    cat_file (fun _ => .error .PermissionDenied) (List.replicate 40 'a') =
      .err (.domain .ObjectNotFound) ∧
    cat_file (fun _ => .error .NotFound) (List.replicate 40 'a') =
      .err (.domain .ObjectNotFound) := by
  decide

/-- C2 (amended): when opening the backing file at the resolved location
fails, `cat_file` fails with `ObjectNotFound` regardless of the kind of the
open error — `File::open(path).map(ZlibDecoder::new).ok()` discards the error
kind, so permission or I/O errors are collapsed into `ObjectNotFound` rather
than surfaced distinguishably. -/
theorem claim_c2_open_errors_collapsed (hash path : List Char)
    (fs : List Char → Except FsErrorKind (List Nat)) (e : FsErrorKind)
    (hpath : parse_object_path_from_hash hash = .ok path)
    (hfs : fs path = .error e) :
    cat_file fs hash = .err (.domain .ObjectNotFound) := by
  simp only [cat_file, hpath]
  rw [hfs]
  rfl

theorem claim_c2_witness :
    cat_file (fun _ => .error .Other) (List.replicate 40 'b') =
      .err (.domain .ObjectNotFound) :=
  claim_c2_open_errors_collapsed (List.replicate 40 'b')
    (objectsRoot ++ ('b' :: 'b' :: []) ++ '/' :: List.replicate 38 'b')
    (fun _ => .error .Other) .Other (by decide) rfl

/-- The object path of the hard-coded hash, `./.git/objects/ac/136066...`. -/
def stubPath : List Char :=
  ("./.git/objects/ac/136066947976e9f5ae7cc6bdccac22d0fc0f6f").data

/-- The shard directory of the hard-coded hash, `./.git/objects/ac`; it is
both the first 17 bytes of `stubPath` (the source's `split_at (17)`) and its
parent directory. -/
def stubDir : List Char := ("./.git/objects/ac").data

theorem hash_object_unfold (st : FsState) (p : List Char) :
    hash_object st p =
      match fs_write st stubPath [] with
      | .ok st1 => .ok (st1, stubHash)
      | .error e =>
        if e = .NotFound then
          match fs_create_dir st stubDir with
          | .error e2 => .err (.io e2)
          | .ok st1 =>
            match fs_write st1 stubPath [] with
            | .error e3 => .err (.io e3)
            | .ok st2 => .ok (st2, stubHash)
        else .ok (st, stubHash) := by
  rfl

theorem parentDir_stubPath : parentDir stubPath = stubDir := by decide

theorem writeAt_idem (f : List Char → Option (List Nat)) (p : List Char)
    (v : List Nat) : writeAt (writeAt f p v) p v = writeAt f p v := by
  funext q
  unfold writeAt
  by_cases h : q = p <;> simp [h]

theorem hash_object_write_ok (st : FsState) (p : List Char)
    (hdir : stubDir ∈ st.dirs) :
    hash_object st p =
      .ok (FsState.mk st.dirs (writeAt st.files stubPath []), stubHash) := by
  rw [hash_object_unfold]
  simp [fs_write, parentDir_stubPath, hdir]

theorem hash_object_mkdir_ok (st : FsState) (p : List Char)
    (hdir : stubDir ∉ st.dirs) (hobj : parentDir stubDir ∈ st.dirs) :
    hash_object st p =
      .ok (FsState.mk (stubDir :: st.dirs) (writeAt st.files stubPath []),
        stubHash) := by
  rw [hash_object_unfold]
  simp [fs_write, fs_create_dir, parentDir_stubPath, hdir, hobj]

theorem hash_object_no_objects_dir (st : FsState) (p : List Char)
    (hdir : stubDir ∉ st.dirs) (hobj : parentDir stubDir ∉ st.dirs) :
    hash_object st p = .err (.io .NotFound) := by
  rw [hash_object_unfold]
  simp [fs_write, fs_create_dir, parentDir_stubPath, hdir, hobj]

/-- C9: `hash_object` is idempotent — when a call succeeds, running it again
from the resulting state succeeds with the same hash and leaves the
filesystem state exactly as it was after the first call. -/
theorem claim_c9_idempotent (st : FsState) (p : List Char) (st1 : FsState)
    (h1 : List Char) (hcall : hash_object st p = .ok (st1, h1)) :
    hash_object st1 p = .ok (st1, h1) := by
  by_cases hdir : stubDir ∈ st.dirs
  · rw [hash_object_write_ok st p hdir] at hcall
    simp only [RRes.ok.injEq, Prod.mk.injEq] at hcall
    obtain ⟨hst, hh⟩ := hcall
    subst hst
    subst hh
    rw [hash_object_write_ok
      (FsState.mk st.dirs (writeAt st.files stubPath [])) p hdir, writeAt_idem]
  · by_cases hobj : parentDir stubDir ∈ st.dirs
    · rw [hash_object_mkdir_ok st p hdir hobj] at hcall
      simp only [RRes.ok.injEq, Prod.mk.injEq] at hcall
      obtain ⟨hst, hh⟩ := hcall
      subst hst
      subst hh
      rw [hash_object_write_ok
        (FsState.mk (stubDir :: st.dirs) (writeAt st.files stubPath [])) p
        (by simp), writeAt_idem]
    · rw [hash_object_no_objects_dir st p hdir hobj] at hcall
      cases hcall

theorem claim_c9_witness :
    hash_object (FsState.mk (stubDir :: []) (writeAt (fun _ => none) stubPath []))
        [] =
      .ok (FsState.mk (stubDir :: []) (writeAt (fun _ => none) stubPath []),
        stubHash) :=
  claim_c9_idempotent (FsState.mk (stubDir :: []) (fun _ => none)) []
    (FsState.mk (stubDir :: []) (writeAt (fun _ => none) stubPath [])) stubHash
    rfl

/-- C1: the round-trip claim fails — `hash_object` ignores its input entirely:
every successful call returns the constant stub hash, and the only file it
ever writes holds the empty byte string, not a frame; the concrete claim that
`put(b"abcd123")` stores a frame encoding `blob 7\0abcd123` is contradicted
since that frame is non-empty, and a `get` reading the stored empty object
fails with `MalformedObject` instead of returning the content. -/
theorem claim_c1_roundtrip_broken :
    (∀ st p st1 h1, hash_object st p = .ok (st1, h1) →
      h1 = stubHash ∧ ∀ q, st1.files q = st.files q ∨ st1.files q = some []) ∧
    specFrame (("abcd123").data) = ("blob 7\x00abcd123").data ∧
    utf8Encode (("blob 7\x00abcd123").data) ≠ [] ∧
    parse_blob (some []) = .err (.domain .MalformedObject) := by
  refine ⟨?_, by decide, by decide, by decide⟩
  intro st p st1 h1 hcall
  by_cases hdir : stubDir ∈ st.dirs
  · rw [hash_object_write_ok st p hdir] at hcall
    simp only [RRes.ok.injEq, Prod.mk.injEq] at hcall
    obtain ⟨hst, hh⟩ := hcall
    subst hst
    subst hh
    refine ⟨rfl, fun q => ?_⟩
    by_cases hq : q = stubPath
    · exact Or.inr (by simp [writeAt, hq])
    · exact Or.inl (by simp [writeAt, hq])
  · by_cases hobj : parentDir stubDir ∈ st.dirs
    · rw [hash_object_mkdir_ok st p hdir hobj] at hcall
      simp only [RRes.ok.injEq, Prod.mk.injEq] at hcall
      obtain ⟨hst, hh⟩ := hcall
      subst hst
      subst hh
      refine ⟨rfl, fun q => ?_⟩
      by_cases hq : q = stubPath
      · exact Or.inr (by simp [writeAt, hq])
      · exact Or.inl (by simp [writeAt, hq])
    · rw [hash_object_no_objects_dir st p hdir hobj] at hcall
      cases hcall

theorem claim_c1_witness :
    (FsState.mk (stubDir :: []) (writeAt (fun _ => none) stubPath [])).files
        stubPath = (FsState.mk (stubDir :: []) (fun _ => none)).files stubPath ∨
    (FsState.mk (stubDir :: []) (writeAt (fun _ => none) stubPath [])).files
        stubPath = some [] :=
  (claim_c1_roundtrip_broken.1 (FsState.mk (stubDir :: []) (fun _ => none)) []
    (FsState.mk (stubDir :: []) (writeAt (fun _ => none) stubPath [])) stubHash
    rfl).2 stubPath

theorem parse_blob_good_example :
    parse_blob (some (utf8Encode (("blob 7\x00abcd123").data))) =
      .ok (("abcd123").data) := by decide

theorem parse_object_path_example :
    parse_object_path_from_hash (("a1b2c3d4e5f6g7h8i9j0a1b2c3d4e5f6g7h8i9j0").data) =
      .ok (("./.git/objects/a1/b2c3d4e5f6g7h8i9j0a1b2c3d4e5f6g7h8i9j0").data) := by
  decide
